import Mathlib

/-!
Verification of the dirac repository: a Dirac-notation parser and a dense
complex tensor-algebra engine.  The Rust `Complex64` (pairs of `f64`) is
modelled by Mathlib's `ℂ` (exact real arithmetic); `Vec<Complex64>` by
`List ℂ`; panics (`assert!`, `unwrap`, `unreachable!`) by `Option` failure.
-/

/-- Complex conjugate, modelling `Complex64::conj`. -/
noncomputable def cconj (z : ℂ) : ℂ := (starRingEnd ℂ) z

/-- `Tensor` from `src/lib/tensor/src/lib.rs`: row-major data plus
`shape = (rows, cols)`. -/
structure Tensor where
  data : List ℂ
  shape : ℕ × ℕ

/-- The `Index<(usize, usize)>` impl: `data[col + row * cols]`.
Out-of-range reads (a panic in Rust) are totalised with default `0`;
all claims below only read in range under the length invariant. -/
noncomputable def Tensor.index (t : Tensor) (i j : ℕ) : ℂ :=
  t.data.getD (j + i * t.shape.2) 0

/-- `Tensor::eye`: identity matrix, built by the double push loop. -/
noncomputable def Tensor.eye (n : ℕ) : Tensor :=
  ⟨(List.range n).flatMap (fun i => (List.range n).map (fun j => if i = j then 1 else 0)),
   (n, n)⟩

/-- `Tensor::item`: the sole entry of a `(1,1)` tensor, `None` otherwise.
(`self.data[0]` on an invariant-violating empty `data` would panic; that is
the `none` of `data[0]?`.) -/
def Tensor.item (t : Tensor) : Option ℂ :=
  if t.shape = (1, 1) then t.data[0]? else none

/-- `Tensor::norm_sqr`: sum of squared magnitudes of the entries. -/
noncomputable def Tensor.norm_sqr (t : Tensor) : ℝ :=
  (t.data.map Complex.normSq).sum

/-- `Tensor::norm`. -/
noncomputable def Tensor.norm (t : Tensor) : ℝ := Real.sqrt t.norm_sqr

/-- `Div<f64> for &Tensor`: componentwise division by a real scalar. -/
noncomputable def Tensor.divR (t : Tensor) (r : ℝ) : Tensor :=
  ⟨t.data.map (fun c => c / (r : ℂ)), t.shape⟩

/-- `Mul<f64> for &Tensor`: componentwise scaling by a real scalar. -/
noncomputable def Tensor.mulR (t : Tensor) (r : ℝ) : Tensor :=
  ⟨t.data.map (fun c => c * (r : ℂ)), t.shape⟩

/-- `Mul<Complex64> for &Tensor`: componentwise scaling by a complex scalar. -/
noncomputable def Tensor.mulC (t : Tensor) (z : ℂ) : Tensor :=
  ⟨t.data.map (fun c => c * z), t.shape⟩

/-- `Tensor::unit`: scale by the reciprocal of the norm. -/
noncomputable def Tensor.unit (t : Tensor) : Tensor := t.divR t.norm

/-- `Tensor::dag`: conjugate transpose.  Vectors (a row or column) just
conjugate the data and swap the shape; matrices transpose position by
position (outer loop over columns `j`, inner over rows `i`). -/
noncomputable def Tensor.dag (t : Tensor) : Tensor :=
  if t.shape.1 = 1 ∨ t.shape.2 = 1 then
    ⟨t.data.map cconj, (t.shape.2, t.shape.1)⟩
  else
    ⟨(List.range t.shape.2).flatMap
       (fun j => (List.range t.shape.1).map (fun i => cconj (t.index i j))),
     (t.shape.2, t.shape.1)⟩

/-- A sequence of in-place array writes `data[idx] = v`, as performed by the
loop body of `Tensor::prod`. -/
def writes (ps : List (ℕ × ℂ)) (init : List ℂ) : List ℂ :=
  ps.foldl (fun d p => d.set p.1 p.2) init

/-- The list of `(index, value)` writes issued by the four nested loops of
`Tensor::prod` (`i` over self cols, `j` over self rows, `k` over rhs cols,
`l` over rhs rows; `x = i*s + k`, `y = j*r + l`, write at `x + y*cols`). -/
noncomputable def prodPairs (t u : Tensor) : List (ℕ × ℂ) :=
  (List.range t.shape.2).flatMap fun i =>
    (List.range t.shape.1).flatMap fun j =>
      (List.range u.shape.2).flatMap fun k =>
        (List.range u.shape.1).map fun l =>
          ((i * u.shape.2 + k) + (j * u.shape.1 + l) * (t.shape.2 * u.shape.2),
           t.index j i * u.index l k)

/-- `Tensor::prod`: Kronecker product.  A zero vector of length
`rows*cols` is allocated and then overwritten entry by entry. -/
noncomputable def Tensor.prod (t u : Tensor) : Tensor :=
  ⟨writes (prodPairs t u)
     (List.replicate ((t.shape.1 * u.shape.1) * (t.shape.2 * u.shape.2)) 0),
   (t.shape.1 * u.shape.1, t.shape.2 * u.shape.2)⟩

/-- Elementwise `Add` (the `assert!(self.shape == rhs.shape)` is the
`none` branch). -/
noncomputable def Tensor.add (t u : Tensor) : Option Tensor :=
  if t.shape = u.shape then some ⟨List.zipWith (· + ·) t.data u.data, t.shape⟩ else none

/-- Elementwise `Sub`. -/
noncomputable def Tensor.sub (t u : Tensor) : Option Tensor :=
  if t.shape = u.shape then some ⟨List.zipWith (· - ·) t.data u.data, t.shape⟩ else none

/-- `BitOr for Tensor`: the unconjugated dot product
`Σ data[i] * rhs.data[i]` over the zipped data. -/
noncomputable def Tensor.bitor (t u : Tensor) : ℂ :=
  (List.zipWith (· * ·) t.data u.data).sum

/-- `Mul<&Tensor> for &Tensor`: matrix multiplication.  The `assert!`
guard is the outer `if`; a `(1,1)` operand instead scales the other
operand (`self` checked first). -/
noncomputable def Tensor.mul (t u : Tensor) : Option Tensor :=
  if t.shape.2 = u.shape.1 ∨ t.shape = (1, 1) ∨ u.shape = (1, 1) then
    if t.shape = (1, 1) then t.item.map (fun z => u.mulC z)
    else if u.shape = (1, 1) then u.item.map (fun z => t.mulC z)
    else
      some ⟨(List.range t.shape.1).flatMap
              (fun i => (List.range u.shape.2).map
                (fun j => ((List.range t.shape.2).map
                  (fun k => t.index i k * u.index k j)).sum)),
            (t.shape.1, u.shape.2)⟩
  else none

/-- `Div<&Tensor> for &Tensor`: `assert!(rhs.shape == (1,1))`, then
elementwise division by the scalar. -/
noncomputable def Tensor.div (t u : Tensor) : Option Tensor :=
  if u.shape = (1, 1) then u.item.map (fun z => ⟨t.data.map (fun c => c / z), t.shape⟩)
  else none

/-- `AsTensor for char`: the basis decoder; any character outside
`{0,1,+,-}` panics (`none`). -/
noncomputable def Tensor.as_tensor (c : Char) : Option Tensor :=
  if c = '0' then some ⟨[⟨1, 0⟩, ⟨0, 0⟩], (2, 1)⟩
  else if c = '1' then some ⟨[⟨0, 0⟩, ⟨1, 0⟩], (2, 1)⟩
  else if c = '+' then some (Tensor.unit ⟨[⟨1, 0⟩, ⟨1, 0⟩], (2, 1)⟩)
  else if c = '-' then some (Tensor.unit ⟨[⟨1, 0⟩, ⟨0, -1⟩], (2, 1)⟩)
  else none

/-- `KroneckerProduct for Vec<Tensor>`: `reduce` with `prod`; empty input
panics (`none`). -/
noncomputable def kprodList : List Tensor → Option Tensor
  | [] => none
  | t :: ts => some (ts.foldl Tensor.prod t)

/-! ### Lemmas about `writes` -/

theorem writes_length (ps : List (ℕ × ℂ)) (init : List ℂ) :
    (writes ps init).length = init.length := by
  induction ps generalizing init with
  | nil => rfl
  | cons p ps ih =>
    show (writes ps (init.set p.1 p.2)).length = init.length
    rw [ih, List.length_set]

theorem writes_getElem?_not_mem (ps : List (ℕ × ℂ)) (init : List ℂ) (n : ℕ)
    (h : n ∉ ps.map Prod.fst) : (writes ps init)[n]? = init[n]? := by
  induction ps generalizing init with
  | nil => rfl
  | cons p ps ih =>
    simp only [List.map_cons, List.mem_cons] at h
    push_neg at h
    show (writes ps (init.set p.1 p.2))[n]? = init[n]?
    rw [ih _ h.2, List.getElem?_set, if_neg (by exact fun hc => h.1 hc.symm)]

theorem writes_getElem?_mem (ps : List (ℕ × ℂ)) (init : List ℂ) (n : ℕ) (v : ℂ)
    (hm : (n, v) ∈ ps) (hnd : (ps.map Prod.fst).Nodup) (hn : n < init.length) :
    (writes ps init)[n]? = some v := by
  induction ps generalizing init with
  | nil => simp at hm
  | cons p ps ih =>
    simp only [List.map_cons, List.nodup_cons] at hnd
    rcases List.mem_cons.1 hm with h | h
    · have h1 : p.1 = n := by rw [← h]
      have h2 : p.2 = v := by rw [← h]
      show (writes ps (init.set p.1 p.2))[n]? = some v
      rw [writes_getElem?_not_mem _ _ _ (h1 ▸ hnd.1), h1, h2,
        List.getElem?_set, if_pos rfl, if_pos hn]
    · show (writes ps (init.set p.1 p.2))[n]? = some v
      exact ih _ h hnd.2 (by rwa [List.length_set])

/-! ### Arithmetic helpers for the Kronecker index interleaving -/

theorem addMul_lt {i k q s : ℕ} (hi : i < q) (hk : k < s) : i * s + k < q * s := by
  calc i * s + k < i * s + s := by omega
  _ = (i + 1) * s := by ring
  _ ≤ q * s := Nat.mul_le_mul_right s hi

theorem addMul_inj {S x y x' y' : ℕ} (hx : x < S) (hx' : x' < S)
    (h : x + y * S = x' + y' * S) : x = x' ∧ y = y' := by
  have hS : 0 < S := lt_of_le_of_lt (Nat.zero_le x) hx
  have hmod := congrArg (· % S) h
  simp only [Nat.add_mul_mod_self_right, Nat.mod_eq_of_lt hx, Nat.mod_eq_of_lt hx'] at hmod
  have hdiv := congrArg (· / S) h
  simp only [Nat.add_mul_div_right _ _ hS, Nat.div_eq_of_lt hx, Nat.div_eq_of_lt hx'] at hdiv
  omega

theorem prodPairs_eq_map (t u : Tensor) :
    prodPairs t u =
      ((List.range t.shape.2) ×ˢ ((List.range t.shape.1) ×ˢ
        ((List.range u.shape.2) ×ˢ (List.range u.shape.1)))).map
        (fun q =>
          ((q.1 * u.shape.2 + q.2.2.1) + (q.2.1 * u.shape.1 + q.2.2.2) *
              (t.shape.2 * u.shape.2),
           t.index q.2.1 q.1 * u.index q.2.2.2 q.2.2.1)) := by
  simp only [SProd.sprod, List.product, List.map_flatMap, List.map_map]
  rfl

theorem prodPairs_fst_nodup (t u : Tensor) :
    ((prodPairs t u).map Prod.fst).Nodup := by
  rw [prodPairs_eq_map, List.map_map]
  apply List.Nodup.map_on
  · rintro ⟨i, j, k, l⟩ hx ⟨i', j', k', l'⟩ hy hf
    simp only [List.mem_product, List.mem_range] at hx hy
    obtain ⟨hi, hj, hk, hl⟩ := hx
    obtain ⟨hi', hj', hk', hl'⟩ := hy
    simp only [Function.comp_apply] at hf
    obtain ⟨h1, h2⟩ := addMul_inj (addMul_lt hi hk) (addMul_lt hi' hk') hf
    rw [Nat.add_comm (i * u.shape.2) k, Nat.add_comm (i' * u.shape.2) k'] at h1
    rw [Nat.add_comm (j * u.shape.1) l, Nat.add_comm (j' * u.shape.1) l'] at h2
    obtain ⟨hkk, hii⟩ := addMul_inj hk hk' h1
    obtain ⟨hll, hjj⟩ := addMul_inj hl hl' h2
    simp [hkk, hii, hll, hjj]
  · exact ((List.nodup_range _).product ((List.nodup_range _).product
      ((List.nodup_range _).product (List.nodup_range _))))

theorem prodPairs_mem (t u : Tensor) {j i l k : ℕ}
    (hj : j < t.shape.1) (hi : i < t.shape.2) (hl : l < u.shape.1) (hk : k < u.shape.2) :
    ((i * u.shape.2 + k) + (j * u.shape.1 + l) * (t.shape.2 * u.shape.2),
      t.index j i * u.index l k) ∈ prodPairs t u := by
  rw [prodPairs_eq_map]
  refine List.mem_map.2 ⟨(i, j, k, l), ?_, rfl⟩
  simp [List.mem_product, List.mem_range, hi, hj, hk, hl]

/-- C1: the Kronecker product has shape `(p*r, q*s)` and its entry at
row `j*r + l`, column `i*s + k` is `A[j,i] * B[l,k]`. -/
theorem kronecker_prod_spec (A B : Tensor)
    (hA : A.data.length = A.shape.1 * A.shape.2)
    (hB : B.data.length = B.shape.1 * B.shape.2)
    {j i l k : ℕ}
    (hj : j < A.shape.1) (hi : i < A.shape.2) (hl : l < B.shape.1) (hk : k < B.shape.2) :
    (A.prod B).shape = (A.shape.1 * B.shape.1, A.shape.2 * B.shape.2) ∧
    (A.prod B).index (j * B.shape.1 + l) (i * B.shape.2 + k) =
      A.index j i * B.index l k := by
  refine ⟨rfl, ?_⟩
  have hidx : (i * B.shape.2 + k) + (j * B.shape.1 + l) * (A.shape.2 * B.shape.2) <
      (A.shape.1 * B.shape.1) * (A.shape.2 * B.shape.2) := by
    have hx := addMul_lt hi hk
    have hy := addMul_lt hj hl
    calc (i * B.shape.2 + k) + (j * B.shape.1 + l) * (A.shape.2 * B.shape.2)
        < (A.shape.2 * B.shape.2) + (j * B.shape.1 + l) * (A.shape.2 * B.shape.2) := by omega
      _ = ((j * B.shape.1 + l) + 1) * (A.shape.2 * B.shape.2) := by ring
      _ ≤ (A.shape.1 * B.shape.1) * (A.shape.2 * B.shape.2) :=
          Nat.mul_le_mul_right _ hy
  have hget : (A.prod B).data[(i * B.shape.2 + k) +
      (j * B.shape.1 + l) * (A.shape.2 * B.shape.2)]? =
      some (A.index j i * B.index l k) := by
    refine writes_getElem?_mem _ _ _ _ (prodPairs_mem A B hj hi hl hk)
      (prodPairs_fst_nodup A B) ?_
    rwa [List.length_replicate]
  show (A.prod B).data.getD ((i * B.shape.2 + k) +
      (j * B.shape.1 + l) * ((A.prod B).shape.2)) 0 = A.index j i * B.index l k
  rw [List.getD_eq_getElem?_getD]
  have hsh : (A.prod B).shape.2 = A.shape.2 * B.shape.2 := rfl
  rw [hsh, hget]
  rfl

/-- Witness for C1 at concrete tensors `A = [[2]]` of shape `(1,1)` and
`B = [[3],[5]]` of shape `(2,1)`. -/
theorem kronecker_prod_spec_witness :
    ((Tensor.mk [⟨2, 0⟩] (1, 1)).prod (Tensor.mk [⟨3, 0⟩, ⟨5, 0⟩] (2, 1))).shape = (1 * 2, 1 * 1) ∧
    ((Tensor.mk [⟨2, 0⟩] (1, 1)).prod (Tensor.mk [⟨3, 0⟩, ⟨5, 0⟩] (2, 1))).index
        (0 * 2 + 1) (0 * 1 + 0) =
      (Tensor.mk [⟨2, 0⟩] (1, 1)).index 0 0 * (Tensor.mk [⟨3, 0⟩, ⟨5, 0⟩] (2, 1)).index 1 0 :=
  kronecker_prod_spec (Tensor.mk [⟨2, 0⟩] (1, 1)) (Tensor.mk [⟨3, 0⟩, ⟨5, 0⟩] (2, 1))
    (by simp) (by simp) (by decide) (by decide) (by decide) (by decide)

/-! ### Expression tree and evaluator (`src/lib/dirac/src/expression.rs`) -/

/-- The `Expression` enum. -/
inductive Expression where
  | Scalar : ℂ → Expression
  | Bra : Tensor → Expression
  | Ket : Tensor → Expression
  | AdditiveInverse : Expression → Expression
  | Dagger : Expression → Expression
  | Mul : Expression → Expression → Expression
  | Div : Expression → Expression → Expression
  | Add : Expression → Expression → Expression
  | Sub : Expression → Expression → Expression
  | Kronecker : Expression → Expression → Expression
  | Inner : Expression → Expression → Expression
  | Outer : Tensor → Tensor → Expression
  | Parenthised : Expression → Expression
  | Norm : Expression → Expression

/-- `Expression::compute`: post-order reduction to a tensor; shape
mismatch panics inside the engine become `none`. -/
noncomputable def compute : Expression → Option Tensor
  | .Scalar c => some ⟨[c], (1, 1)⟩
  | .Bra t => some t.dag
  | .Ket t => some t
  | .AdditiveInverse e => (compute e).map (fun t => t.mulR (-1))
  | .Dagger e => (compute e).map Tensor.dag
  | .Mul a b => do
      let ta ← compute a
      let tb ← compute b
      Tensor.mul ta tb
  | .Div a b => do
      let ta ← compute a
      let tb ← compute b
      Tensor.div ta tb
  | .Add a b => do
      let ta ← compute a
      let tb ← compute b
      Tensor.add ta tb
  | .Sub a b => do
      let ta ← compute a
      let tb ← compute b
      Tensor.sub ta tb
  | .Kronecker a b => do
      let ta ← compute a
      let tb ← compute b
      some (ta.prod tb)
  | .Inner a b => do
      let ta ← compute a
      let tb ← compute b
      some ⟨[Tensor.bitor ta tb], (1, 1)⟩
  | .Outer a b => Tensor.mul a b.dag
  | .Parenthised e => compute e
  | .Norm e => (compute e).map (fun t => ⟨[(t.norm : ℂ)], (1, 1)⟩)

/-! ### The dot product as an explicit sum -/

theorem zipWith_mul_sum (xs ys : List ℂ) :
    (List.zipWith (· * ·) xs ys).sum =
      ∑ n ∈ Finset.range (min xs.length ys.length), xs.getD n 0 * ys.getD n 0 := by
  induction xs generalizing ys with
  | nil => simp
  | cons x xs ih =>
    cases ys with
    | nil => simp
    | cons y ys =>
      simp only [List.zipWith_cons_cons, List.sum_cons, ih, List.length_cons,
        Nat.succ_min_succ, Finset.sum_range_succ']
      simp [List.getD_cons_succ, List.getD_cons_zero, add_comm]

theorem compute_inner_eq (a b : Expression) (ta tb : Tensor)
    (ha : compute a = some ta) (hb : compute b = some tb) :
    compute (.Inner a b) = some ⟨[Tensor.bitor ta tb], (1, 1)⟩ := by
  simp [compute, ha, hb]

/-- C2: an `Inner` node evaluates to the 1×1 tensor holding the plain,
unconjugated dot product `Σ a.data[i] * b.data[i]` of the operands. -/
theorem inner_is_unconjugated_dot (a b : Expression) (ta tb : Tensor)
    (ha : compute a = some ta) (hb : compute b = some tb) :
    compute (.Inner a b) =
      some ⟨[∑ n ∈ Finset.range (min ta.data.length tb.data.length),
              ta.data.getD n 0 * tb.data.getD n 0], (1, 1)⟩ := by
  rw [compute_inner_eq a b ta tb ha hb, Tensor.bitor, zipWith_mul_sum]

/-- Witness for C2 at two scalar operands. -/
theorem inner_is_unconjugated_dot_witness :
    compute (.Inner (.Scalar ⟨2, 0⟩) (.Scalar ⟨3, 0⟩)) =
      some ⟨[∑ n ∈ Finset.range (min 1 1),
              [(⟨2, 0⟩ : ℂ)].getD n 0 * [(⟨3, 0⟩ : ℂ)].getD n 0], (1, 1)⟩ :=
  inner_is_unconjugated_dot (.Scalar ⟨2, 0⟩) (.Scalar ⟨3, 0⟩) _ _ rfl rfl

/-- C3: evaluating `Inner` on operands of different data lengths does not
abort; it silently returns the sum over the first
`min (len a.data) (len b.data)` paired products. -/
theorem inner_ignores_length_mismatch (a b : Expression) (ta tb : Tensor)
    (ha : compute a = some ta) (hb : compute b = some tb)
    (hne : ta.data.length ≠ tb.data.length) :
    compute (.Inner a b) =
      some ⟨[∑ n ∈ Finset.range (min ta.data.length tb.data.length),
              ta.data.getD n 0 * tb.data.getD n 0], (1, 1)⟩ := by
  rw [compute_inner_eq a b ta tb ha hb, Tensor.bitor, zipWith_mul_sum]

/-- Witness for C3: a 1×2 row dotted with a 4×1 column (lengths 2 and 4). -/
theorem inner_ignores_length_mismatch_witness :
    compute (.Inner (.Ket ⟨[⟨1, 0⟩, ⟨1, 0⟩], (1, 2)⟩)
                    (.Ket ⟨[⟨1, 0⟩, ⟨1, 0⟩, ⟨1, 0⟩, ⟨1, 0⟩], (4, 1)⟩)) =
      some ⟨[∑ n ∈ Finset.range (min 2 4),
              [(⟨1, 0⟩ : ℂ), ⟨1, 0⟩].getD n 0 *
                [(⟨1, 0⟩ : ℂ), ⟨1, 0⟩, ⟨1, 0⟩, ⟨1, 0⟩].getD n 0], (1, 1)⟩ :=
  inner_ignores_length_mismatch (.Ket ⟨[⟨1, 0⟩, ⟨1, 0⟩], (1, 2)⟩)
    (.Ket ⟨[⟨1, 0⟩, ⟨1, 0⟩, ⟨1, 0⟩, ⟨1, 0⟩], (4, 1)⟩)
    ⟨[⟨1, 0⟩, ⟨1, 0⟩], (1, 2)⟩ ⟨[⟨1, 0⟩, ⟨1, 0⟩, ⟨1, 0⟩, ⟨1, 0⟩], (4, 1)⟩
    rfl rfl (by decide)

/-! ### Row-major double loops -/

theorem range_flatMap_map_length {α : Type} (m p : ℕ) (g : ℕ → ℕ → α) :
    ((List.range m).flatMap (fun i => (List.range p).map (g i))).length = m * p := by
  rw [List.length_flatMap]
  have h : List.map (List.length ∘ fun i => (List.range p).map (g i)) (List.range m) =
      List.replicate m p := by
    rw [List.eq_replicate_iff]
    constructor
    · simp
    · intro b hb
      simp only [List.mem_map, Function.comp_apply, List.length_map, List.length_range] at hb
      obtain ⟨_, _, hb⟩ := hb
      omega
  rw [h, List.sum_replicate, smul_eq_mul]

theorem range_flatMap_map_getElem? {α : Type} {m p : ℕ} (g : ℕ → ℕ → α) {i j : ℕ}
    (hi : i < m) (hj : j < p) :
    ((List.range m).flatMap (fun i => (List.range p).map (g i)))[j + i * p]? =
      some (g i j) := by
  induction m with
  | zero => omega
  | succ M ih =>
    rw [List.range_succ, List.flatMap_append]
    have hlen : ((List.range M).flatMap (fun i => (List.range p).map (g i))).length = M * p :=
      range_flatMap_map_length M p g
    rcases Nat.lt_or_ge i M with h | h
    · rw [List.getElem?_append, if_pos]
      · exact ih h
      · rw [hlen]
        calc j + i * p < p + i * p := by omega
        _ = (i + 1) * p := by ring
        _ ≤ M * p := Nat.mul_le_mul_right p h
    · have hiM : i = M := by omega
      subst hiM
      rw [List.getElem?_append_right (by omega)]
      simp only [hlen]
      have hsub : j + i * p - i * p = j := by omega
      rw [hsub]
      simp [List.getElem?_map, List.getElem?_range hj]

/-- The shape invariant of the data model: `len(data) == rows * cols`. -/
def GoodShape (t : Tensor) : Prop := t.data.length = t.shape.1 * t.shape.2

theorem getElem?_zero_of_length_one {l : List ℂ} (h : l.length = 1) :
    l[0]? = some (l.getD 0 0) := by
  cases l with
  | nil => simp at h
  | cons a l => simp [List.getD_cons_zero]

/-- C4: every tensor-engine operation preserves the invariant
`data.length = rows * cols` (for the fallible operations: whenever they
return a tensor at all). -/
theorem engine_preserves_invariant :
    (∀ n : ℕ, GoodShape (Tensor.eye n)) ∧
    (∀ t : Tensor, GoodShape t → GoodShape t.dag) ∧
    (∀ t u : Tensor, GoodShape (t.prod u)) ∧
    (∀ t u r : Tensor, GoodShape t → GoodShape u → t.add u = some r → GoodShape r) ∧
    (∀ t u r : Tensor, GoodShape t → GoodShape u → t.sub u = some r → GoodShape r) ∧
    (∀ (t : Tensor) (x : ℝ), GoodShape t → GoodShape (t.mulR x)) ∧
    (∀ (t : Tensor) (z : ℂ), GoodShape t → GoodShape (t.mulC z)) ∧
    (∀ (t : Tensor) (x : ℝ), GoodShape t → GoodShape (t.divR x)) ∧
    (∀ t u r : Tensor, GoodShape t → GoodShape u → t.mul u = some r → GoodShape r) ∧
    (∀ t u r : Tensor, GoodShape t → t.div u = some r → GoodShape r) ∧
    (∀ (c : Char) (r : Tensor), Tensor.as_tensor c = some r → GoodShape r) := by
  refine ⟨?_, ?_, ?_, ?_, ?_, ?_, ?_, ?_, ?_, ?_, ?_⟩
  · intro n
    show (Tensor.eye n).data.length = n * n
    exact range_flatMap_map_length n n _
  · intro t ht
    unfold Tensor.dag
    split
    · simpa [GoodShape, List.length_map] using ht.trans (Nat.mul_comm _ _)
    · show ((List.range t.shape.2).flatMap _).length = t.shape.2 * t.shape.1
      exact range_flatMap_map_length _ _ _
  · intro t u
    show (writes _ _).length = _
    rw [writes_length, List.length_replicate]
    rfl
  · intro t u r ht hu hr
    unfold Tensor.add at hr
    split at hr
    · cases hr
      show (List.zipWith _ _ _).length = _
      rw [List.length_zipWith, ht, hu]
      rename_i hsh
      rw [hsh]
      exact min_self _
    · exact absurd hr (by simp)
  · intro t u r ht hu hr
    unfold Tensor.sub at hr
    split at hr
    · cases hr
      show (List.zipWith _ _ _).length = _
      rw [List.length_zipWith, ht, hu]
      rename_i hsh
      rw [hsh]
      exact min_self _
    · exact absurd hr (by simp)
  · intro t x ht
    simpa [GoodShape, Tensor.mulR] using ht
  · intro t z ht
    simpa [GoodShape, Tensor.mulC] using ht
  · intro t x ht
    simpa [GoodShape, Tensor.divR] using ht
  · intro t u r ht hu hr
    unfold Tensor.mul at hr
    split at hr
    · split at hr
      · rcases Option.map_eq_some'.1 hr with ⟨z, _, hz⟩
        simpa [GoodShape, ← hz, Tensor.mulC] using hu
      · split at hr
        · rcases Option.map_eq_some'.1 hr with ⟨z, _, hz⟩
          simpa [GoodShape, ← hz, Tensor.mulC] using ht
        · cases hr
          show ((List.range t.shape.1).flatMap _).length = _
          exact range_flatMap_map_length _ _ _
    · exact absurd hr (by simp)
  · intro t u r ht hr
    unfold Tensor.div at hr
    split at hr
    · rcases Option.map_eq_some'.1 hr with ⟨z, _, hz⟩
      simpa [GoodShape, ← hz] using ht
    · exact absurd hr (by simp)
  · intro c r hr
    unfold Tensor.as_tensor at hr
    split at hr
    · cases hr; simp [GoodShape]
    · split at hr
      · cases hr; simp [GoodShape]
      · split at hr
        · cases hr; simp [GoodShape, Tensor.unit, Tensor.divR]
        · split at hr
          · cases hr; simp [GoodShape, Tensor.unit, Tensor.divR]
          · exact absurd hr (by simp)

/-- Witness for C4 at concrete inputs discharging the hypotheses of the
fallible conjuncts. -/
theorem engine_preserves_invariant_witness :
    GoodShape (Tensor.eye 2) ∧
    GoodShape (Tensor.dag ⟨[⟨1, 0⟩, ⟨2, 0⟩], (2, 1)⟩) ∧
    GoodShape ((Tensor.mk [⟨1, 0⟩] (1, 1)).prod (Tensor.mk [⟨1, 0⟩, ⟨0, 0⟩] (2, 1))) ∧
    GoodShape ⟨[(⟨1, 0⟩ : ℂ) + ⟨1, 0⟩], (1, 1)⟩ ∧
    GoodShape ⟨[(⟨1, 0⟩ : ℂ) * ⟨2, 0⟩], (1, 1)⟩ ∧
    GoodShape ⟨[(⟨3, 0⟩ : ℂ) / ⟨2, 0⟩], (1, 1)⟩ := by
  refine ⟨engine_preserves_invariant.1 2,
    engine_preserves_invariant.2.1 _ (by simp [GoodShape]),
    engine_preserves_invariant.2.2.1 _ _,
    engine_preserves_invariant.2.2.2.1 ⟨[⟨1, 0⟩], (1, 1)⟩ ⟨[⟨1, 0⟩], (1, 1)⟩ _
      (by simp [GoodShape]) (by simp [GoodShape]) rfl,
    engine_preserves_invariant.2.2.2.2.2.2.2.2.1 ⟨[⟨2, 0⟩], (1, 1)⟩ ⟨[⟨1, 0⟩], (1, 1)⟩ _
      (by simp [GoodShape]) (by simp [GoodShape]) rfl,
    engine_preserves_invariant.2.2.2.2.2.2.2.2.2.1 ⟨[⟨3, 0⟩], (1, 1)⟩ ⟨[⟨2, 0⟩], (1, 1)⟩ _
      (by simp [GoodShape]) rfl⟩

/-- C5: matrix multiplication: scalar-shaped operands scale the other
operand; compatible shapes give the standard accumulation with shape
`(a.rows, b.cols)`; every other shape combination aborts. -/
theorem matrix_mul_spec :
    (∀ t u : Tensor, ¬t.shape.2 = u.shape.1 → t.shape ≠ (1, 1) → u.shape ≠ (1, 1) →
      t.mul u = none) ∧
    (∀ t u : Tensor, t.shape = (1, 1) → GoodShape t →
      t.mul u = some ⟨u.data.map (fun c => c * t.data.getD 0 0), u.shape⟩) ∧
    (∀ t u : Tensor, u.shape = (1, 1) → t.shape ≠ (1, 1) → GoodShape u →
      t.mul u = some ⟨t.data.map (fun c => c * u.data.getD 0 0), t.shape⟩) ∧
    (∀ t u : Tensor, t.shape.2 = u.shape.1 → t.shape ≠ (1, 1) → u.shape ≠ (1, 1) →
      ∃ r, t.mul u = some r ∧ r.shape = (t.shape.1, u.shape.2) ∧
        ∀ i j : ℕ, i < t.shape.1 → j < u.shape.2 →
          r.index i j =
            ((List.range t.shape.2).map (fun n => t.index i n * u.index n j)).sum) := by
  refine ⟨?_, ?_, ?_, ?_⟩
  · intro t u h h1 h2
    unfold Tensor.mul
    rw [if_neg (by tauto)]
  · intro t u h ht
    unfold Tensor.mul
    rw [if_pos (Or.inr (Or.inl h)), if_pos h]
    rw [Tensor.item, if_pos h]
    rw [getElem?_zero_of_length_one (by unfold GoodShape at ht; rw [ht, h]; rfl)]
    rfl
  · intro t u h h1 hu
    unfold Tensor.mul
    rw [if_pos (Or.inr (Or.inr h)), if_neg h1, if_pos h]
    rw [Tensor.item, if_pos h]
    rw [getElem?_zero_of_length_one (by unfold GoodShape at hu; rw [hu, h]; rfl)]
    rfl
  · intro t u h h1 h2
    unfold Tensor.mul
    rw [if_pos (Or.inl h), if_neg h1, if_neg h2]
    refine ⟨_, rfl, rfl, ?_⟩
    intro i j hi hj
    simp only [Tensor.index, List.getD_eq_getElem?_getD]
    rw [range_flatMap_map_getElem? _ hi hj]
    rfl

/-- Witness for C5, exercising the abort case, both scalar cases and the
accumulation case at concrete tensors. -/
theorem matrix_mul_spec_witness :
    (Tensor.mk [⟨1, 0⟩, ⟨1, 0⟩] (1, 2)).mul (Tensor.mk [⟨1, 0⟩, ⟨1, 0⟩, ⟨1, 0⟩] (3, 1)) =
        none ∧
    (Tensor.mk [⟨2, 0⟩] (1, 1)).mul (Tensor.mk [⟨1, 0⟩, ⟨3, 0⟩] (2, 1)) =
      some ⟨[(⟨1, 0⟩ : ℂ), ⟨3, 0⟩].map
        (fun c => c * [(⟨2, 0⟩ : ℂ)].getD 0 0), (2, 1)⟩ ∧
    (Tensor.mk [⟨1, 0⟩, ⟨3, 0⟩] (2, 1)).mul (Tensor.mk [⟨2, 0⟩] (1, 1)) =
      some ⟨[(⟨1, 0⟩ : ℂ), ⟨3, 0⟩].map
        (fun c => c * [(⟨2, 0⟩ : ℂ)].getD 0 0), (2, 1)⟩ ∧
    (∃ r, (Tensor.mk [⟨1, 0⟩, ⟨2, 0⟩] (1, 2)).mul (Tensor.mk [⟨3, 0⟩, ⟨4, 0⟩] (2, 1)) =
        some r ∧ r.shape = (1, 1) ∧
      ∀ i j : ℕ, i < 1 → j < 1 →
        r.index i j =
          ((List.range 2).map
            (fun n => (Tensor.mk [⟨1, 0⟩, ⟨2, 0⟩] (1, 2)).index 0 n *
              (Tensor.mk [⟨3, 0⟩, ⟨4, 0⟩] (2, 1)).index n 0)).sum) :=
  ⟨matrix_mul_spec.1 _ _ (by decide) (by decide) (by decide),
   matrix_mul_spec.2.1 _ _ rfl (by simp [GoodShape]),
   matrix_mul_spec.2.2.1 _ _ rfl (by decide) (by simp [GoodShape]),
   by
    obtain ⟨r, hr, hsh, hent⟩ := matrix_mul_spec.2.2.2
      (Tensor.mk [⟨1, 0⟩, ⟨2, 0⟩] (1, 2)) (Tensor.mk [⟨3, 0⟩, ⟨4, 0⟩] (2, 1))
      rfl (by decide) (by decide)
    refine ⟨r, hr, hsh, ?_⟩
    intro i j hi hj
    have hi0 : i = 0 := by omega
    have hj0 : j = 0 := by omega
    subst hi0; subst hj0
    exact hent 0 0 (by decide) (by decide)⟩

/-! ### Parser combinators (`nom`, as used in `src/lib/dirac/src/parser`) -/

/-- The type of a nom parser over `&str`: remaining input plus output on
success, `none` on a parse error. -/
def ParseFn (α : Type) : Type := List Char → Option (List Char × α)

/-- A whitespace character for `multispace0`. -/
def isWsChar (c : Char) : Bool := c = ' ' || c = '\t' || c = '\n' || c = '\r'

/-- `nom::character::complete::char`. -/
def pchar (c : Char) : ParseFn Char := fun i =>
  match i with
  | [] => none
  | a :: rest => if a = c then some (rest, a) else none

/-- `nom::bytes::complete::take_while1`. -/
def takeWhile1 (p : Char → Bool) : ParseFn (List Char) := fun i =>
  if (i.takeWhile p).isEmpty then none else some (i.dropWhile p, i.takeWhile p)

/-- The `ws` combinator (`delimited(multispace0, inner, multispace0)`). -/
def wsP {α : Type} (f : ParseFn α) : ParseFn α := fun i =>
  match f (i.dropWhile isWsChar) with
  | some (r, o) => some (r.dropWhile isWsChar, o)
  | none => none

/-- `nom::combinator::opt`. -/
def optP {α : Type} (f : ParseFn α) : ParseFn (Option α) := fun i =>
  match f i with
  | some (r, o) => some (r, some o)
  | none => some (i, none)

/-- `nom::combinator::all_consuming`. -/
def all_consuming {α : Type} (f : ParseFn α) : ParseFn α := fun i =>
  match f i with
  | some (r, o) => if r.isEmpty then some (r, o) else none
  | none => none

/-- `nom::multi::many0`, with its guard that a parser succeeding without
consuming input is an error.  The fuel bound `i.length + 1` dominates the
number of iterations, since every iteration must consume. -/
def many0Aux {α : Type} (f : ParseFn α) : ℕ → ParseFn (List α)
  | 0 => fun i => some (i, [])
  | n + 1 => fun i =>
    match f i with
    | none => some (i, [])
    | some (r, o) =>
      if r.length = i.length then none
      else
        match many0Aux f n r with
        | some (r2, os) => some (r2, o :: os)
        | none => none

/-- `nom::multi::many0`. -/
def many0 {α : Type} (f : ParseFn α) : ParseFn (List α) := fun i =>
  many0Aux f (i.length + 1) i

/-! ### The dirac grammar (`src/lib/dirac/src/parser/mod.rs`) -/

/-- The dagger character `'` (`char(39)`). -/
def squote : Char := Char.ofNat 39

/-- `tensor_basis`: decode each character and Kronecker-reduce. -/
noncomputable def Dirac.tensor_basis (s : List Char) : Option Tensor :=
  (s.mapM Tensor.as_tensor) >>= kprodList

/-- The basis-character class `"01+-".contains(c)`. -/
def allowed (c : Char) : Bool := c = '0' || c = '1' || c = '+' || c = '-'

/-- `basis`: whitespace-wrapped maximal nonempty run of `01+-`. -/
def Dirac.basis : ParseFn (List Char) :=
  wsP (takeWhile1 allowed)

/-- `ket`: `|basis>`. -/
noncomputable def Dirac.ket : ParseFn Expression := fun i => do
  let (i1, _) ← pchar '|' i
  let (i2, s) ← Dirac.basis i1
  let (i3, _) ← pchar '>' i2
  match Dirac.tensor_basis s with
  | some t => some (i3, .Ket t)
  | none => none

/-- `bra`: `<basis|`. -/
noncomputable def Dirac.bra : ParseFn Expression := fun i => do
  let (i1, _) ← pchar '<' i
  let (i2, s) ← Dirac.basis i1
  let (i3, _) ← pchar '|' i2
  match Dirac.tensor_basis s with
  | some t => some (i3, .Bra t)
  | none => none

/-- The value of a maximal digit run. -/
def digitsVal (s : List Char) : ℕ := s.foldl (fun a c => a * 10 + (c.toNat - 48)) 0

/-- The `f64::from_str` conversion applied to a matched numeric literal
(digits with at most one dot); failure of the conversion is the fatal
`unwrap` panic.  Idealised to exact rational values. -/
def parseFloat (s : List Char) : Option ℚ :=
  if s.count '.' = 0 then
    if !s.isEmpty && s.all Char.isDigit then some (digitsVal s) else none
  else if s.count '.' = 1 then
    let intp := s.takeWhile (· != '.')
    let frac := (s.dropWhile (· != '.')).tail
    if (!intp.isEmpty || !frac.isEmpty) && intp.all Char.isDigit && frac.all Char.isDigit then
      some ((digitsVal intp : ℚ) + (digitsVal frac : ℚ) / (10 : ℚ) ^ frac.length)
    else none
  else none

/-- `number`: a maximal run of digits / `.` / `i`; a trailing or sole `i`
selects the pure-imaginary reading. -/
noncomputable def Dirac.number : ParseFn Expression := fun i => do
  let (rem, s) ← takeWhile1 (fun c => c.isDigit || c = '.' || c = 'i') i
  if s.getLast? = some 'i' then
    if s.length = 1 then some (rem, .Scalar ⟨0, 1⟩)
    else
      match parseFloat s.dropLast with
      | some q => some (rem, .Scalar ⟨0, (q : ℝ)⟩)
      | none => none
  else
    match parseFloat s with
    | some q => some (rem, .Scalar ⟨(q : ℝ), 0⟩)
    | none => none

/-- `inner`: the combined `<basis|basis>` rule. -/
noncomputable def Dirac.inner : ParseFn Expression := fun i => do
  let (i1, _) ← pchar '<' i
  let (i2, s1) ← Dirac.basis i1
  let (i3, _) ← pchar '|' i2
  let (i4, s2) ← Dirac.basis i3
  let (i5, _) ← pchar '>' i4
  match Dirac.tensor_basis s1, Dirac.tensor_basis s2 with
  | some t1, some t2 => some (i5, .Inner (.Bra t1) (.Ket t2))
  | _, _ => none

/-- `outer`: a ket immediately followed by a bra. -/
noncomputable def Dirac.outer : ParseFn Expression := fun i => do
  let (i1, ek) ← Dirac.ket i
  let (i2, eb) ← Dirac.bra i1
  match ek, eb with
  | .Ket kt, .Bra bt => some (i2, .Outer kt bt)
  | _, _ => none

/-- `parenthised`: `( additive )`. -/
noncomputable def Dirac.parenthised (add : ParseFn Expression) : ParseFn Expression :=
  fun i => do
    let (i1, _) ← pchar '(' i
    let (i2, e) ← add i1
    let (i3, _) ← pchar ')' i2
    some (i3, .Parenthised e)

/-- `norm`: `| additive |`. -/
noncomputable def Dirac.norm (add : ParseFn Expression) : ParseFn Expression :=
  fun i => do
    let (i1, _) ← pchar '|' i
    let (i2, e) ← add i1
    let (i3, _) ← pchar '|' i2
    some (i3, .Norm e)

/-- `atom`: the `alt` over the whitespace-wrapped atoms, in source order. -/
noncomputable def Dirac.atom (add : ParseFn Expression) : ParseFn Expression := fun i =>
  (wsP Dirac.number) i <|> (wsP Dirac.outer) i <|> (wsP Dirac.inner) i <|>
    (wsP Dirac.bra) i <|> (wsP Dirac.ket) i <|> (wsP (Dirac.parenthised add)) i <|>
    (wsP (Dirac.norm add)) i

/-- `dag`: an atom with an optional trailing `'`. -/
noncomputable def Dirac.dag (add : ParseFn Expression) : ParseFn Expression := fun i => do
  let (i1, e) ← Dirac.atom add i
  let (i2, q) ← optP (pchar squote) i1
  match q with
  | some _ => some (i2, .Dagger e)
  | none => some (i2, e)

/-- `inverse`: optional leading `-`. -/
noncomputable def Dirac.inverse (add : ParseFn Expression) : ParseFn Expression :=
  fun i => do
    let (i1, m) ← optP (pchar '-') i
    let (i2, e) ← wsP (Dirac.dag add) i1
    match m with
    | some _ => some (i2, .AdditiveInverse e)
    | none => some (i2, e)

/-- The `operation` closure of `multiplicative`: one of `* / x .` followed
by an `inverse` term. -/
noncomputable def Dirac.mulOp (add : ParseFn Expression) :
    ParseFn (Option Char × Expression) := fun j => do
  let (j1, c) ← ((pchar '*' j <|> pchar '/' j) <|> (pchar 'x' j <|> pchar '.' j))
  let (j2, e) ← Dirac.inverse add j1
  some (j2, (some c, e))

/-- The `direct` closure of `multiplicative`: bare juxtaposition. -/
noncomputable def Dirac.mulDirect (add : ParseFn Expression) :
    ParseFn (Option Char × Expression) := fun j => do
  let (j1, e) ← wsP (Dirac.dag add) j
  some (j1, ((none : Option Char), e))

/-- `alt((operation, direct))`. -/
noncomputable def Dirac.mulTerm (add : ParseFn Expression) :
    ParseFn (Option Char × Expression) := fun j =>
  Dirac.mulOp add j <|> Dirac.mulDirect add j

/-- The left fold of `multiplicative`'s accumulator loop; an operator
character outside the four (the `unreachable!`) fails. -/
noncomputable def Dirac.mulFold (acc : Expression) (oe : Option Char × Expression) :
    Option Expression :=
  match oe with
  | (some c, e) =>
    if c = '*' then some (.Mul acc e)
    else if c = '/' then some (.Div acc e)
    else if c = 'x' then some (.Kronecker acc e)
    else if c = '.' then some (.Inner acc e)
    else none
  | (none, e) => some (.Mul acc e)

/-- `multiplicative`: a first term and a `many0` of
`{*, /, x, .}`-operations or bare juxtaposition, folded left. -/
noncomputable def Dirac.multiplicative (add : ParseFn Expression) : ParseFn Expression :=
  fun i => do
    let (r1, first) ← Dirac.inverse add i
    let (r2, rest) ← many0 (Dirac.mulTerm add) r1
    let e ← rest.foldlM Dirac.mulFold first
    some (r2, e)

/-- The `operation` closure of `additive`: `+` or `-` followed by a
`multiplicative` term. -/
noncomputable def Dirac.addOp (add : ParseFn Expression) :
    ParseFn (Char × Expression) := fun j => do
  let (j1, c) ← (pchar '+' j <|> pchar '-' j)
  let (j2, e) ← Dirac.multiplicative add j1
  some (j2, (c, e))

/-- One unfolding of `additive`: a first multiplicative term and a `many0`
of `{+,-}`-operations, folded left. -/
noncomputable def Dirac.additiveF (add : ParseFn Expression) : ParseFn Expression :=
  fun i => do
    let (r1, first) ← Dirac.multiplicative add i
    let (r2, rest) ← many0 (Dirac.addOp add) r1
    let e ← rest.foldlM (fun acc ce =>
      if ce.1 = '+' then some (.Add acc ce.2)
      else if ce.1 = '-' then some (.Sub acc ce.2)
      else none) first
    some (r2, e)

/-- The `additive` recursion (the grammar cycle
`additive → multiplicative → … → atom → parenthised/norm → additive`),
indexed by fuel: each unit of fuel is one nesting level of `( … )` or
`| … |`, each of which consumes a character before recursing, so
`input length + 1` levels always suffice. -/
noncomputable def Dirac.additiveCore : ℕ → ParseFn Expression
  | 0 => fun _ => none
  | n + 1 => Dirac.additiveF (Dirac.additiveCore n)

/-- `dirac`: the top-level parser, `all_consuming(additive)`. -/
noncomputable def Dirac.dirac : ParseFn Expression := fun i =>
  all_consuming (Dirac.additiveCore (i.length + 1)) i

/-- Parse and evaluate one notation string (the `.compute()` applied to a
successful parse, as in the repository's tests). -/
noncomputable def Dirac.run (i : List Char) : Option Tensor :=
  match Dirac.dirac i with
  | some (_, e) => compute e
  | none => none

/-- C6: `dirac` is `all_consuming(additive)`: whenever `additive` leaves
unparsed trailing text the top-level parse fails, and in particular the
malformed inputs `"(|0>"`, `"()"` and `"|0>/|0>*"` fail. -/
theorem parse_requires_full_consumption :
    (∀ (i rem : List Char) (e : Expression),
      Dirac.additiveCore (i.length + 1) i = some (rem, e) → rem ≠ [] →
      Dirac.dirac i = none) ∧
    Dirac.dirac ("(|0>".toList) = none ∧
    Dirac.dirac ("()".toList) = none ∧
    Dirac.dirac ("|0>/|0>*".toList) = none := by
  refine ⟨?_, rfl, rfl, rfl⟩
  intro i rem e h hne
  show all_consuming (Dirac.additiveCore (i.length + 1)) i = none
  rw [all_consuming, h]
  simp [hne]

/-- Witness for C6: `additive` parses the prefix `|0>` of `"|0>)"` leaving
`")"`, and the top-level parse indeed fails. -/
theorem parse_requires_full_consumption_witness :
    Dirac.dirac ("|0>)".toList) = none :=
  parse_requires_full_consumption.1 ("|0>)".toList) (")".toList)
    (.Ket ⟨[⟨1, 0⟩, ⟨0, 0⟩], (2, 1)⟩) rfl (by decide)

/-- C7: the three Kronecker-chain notations evaluate to one and the same
8×1 ket. -/
theorem kronecker_chain_assoc :
    ∃ t : Tensor,
      Dirac.run ("|1>x|0>x|1>".toList) = some t ∧
      Dirac.run ("(|1>x|0>)x|1>".toList) = some t ∧
      Dirac.run ("|1>x(|0>x|1>)".toList) = some t ∧
      t.shape = (8, 1) := by
  refine ⟨⟨[⟨0, 0⟩, ⟨0, 0⟩, ⟨0, 0⟩, ⟨0, 0⟩, ⟨0, 0⟩, ⟨1, 0⟩, ⟨0, 0⟩, ⟨0, 0⟩], (8, 1)⟩,
    ?_, ?_, ?_, rfl⟩
  · have hp : Dirac.dirac ("|1>x|0>x|1>".toList) =
        some ([], .Kronecker (.Kronecker (.Ket ⟨[⟨0, 0⟩, ⟨1, 0⟩], (2, 1)⟩)
          (.Ket ⟨[⟨1, 0⟩, ⟨0, 0⟩], (2, 1)⟩)) (.Ket ⟨[⟨0, 0⟩, ⟨1, 0⟩], (2, 1)⟩)) := by rfl
    rw [Dirac.run, hp]
    simp only [compute, Option.bind_eq_bind, Option.some_bind]
    simp [Tensor.prod, prodPairs, writes, List.range_succ, Tensor.index]
    norm_num [Complex.ext_iff]
  · have hp : Dirac.dirac ("(|1>x|0>)x|1>".toList) =
        some ([], .Kronecker (.Parenthised (.Kronecker (.Ket ⟨[⟨0, 0⟩, ⟨1, 0⟩], (2, 1)⟩)
          (.Ket ⟨[⟨1, 0⟩, ⟨0, 0⟩], (2, 1)⟩))) (.Ket ⟨[⟨0, 0⟩, ⟨1, 0⟩], (2, 1)⟩)) := by rfl
    rw [Dirac.run, hp]
    simp only [compute, Option.bind_eq_bind, Option.some_bind]
    simp [Tensor.prod, prodPairs, writes, List.range_succ, Tensor.index]
    norm_num [Complex.ext_iff]
  · have hp : Dirac.dirac ("|1>x(|0>x|1>)".toList) =
        some ([], .Kronecker (.Ket ⟨[⟨0, 0⟩, ⟨1, 0⟩], (2, 1)⟩)
          (.Parenthised (.Kronecker (.Ket ⟨[⟨1, 0⟩, ⟨0, 0⟩], (2, 1)⟩)
            (.Ket ⟨[⟨0, 0⟩, ⟨1, 0⟩], (2, 1)⟩)))) := by rfl
    rw [Dirac.run, hp]
    simp only [compute, Option.bind_eq_bind, Option.some_bind]
    simp [Tensor.prod, prodPairs, writes, List.range_succ, Tensor.index]
    norm_num [Complex.ext_iff]

/-- The first input of C9: `|0>' - <0|`. -/
def c9lhs : List Char := "|0>".toList ++ [squote] ++ " - <0|".toList

/-- The second input of C9: `<0| - |0>'`. -/
def c9rhs : List Char := "<0| - |0>".toList ++ [squote]

/-- C9: daggering the ket `|0>` equals the bra `<0|`: both difference
expressions evaluate to the zero `1×2` tensor. -/
theorem dagger_cancellation :
    Dirac.run c9lhs = some ⟨[0, 0], (1, 2)⟩ ∧
    Dirac.run c9rhs = some ⟨[0, 0], (1, 2)⟩ := by
  constructor
  · have hp : Dirac.dirac c9lhs =
        some ([], .Sub (.Dagger (.Ket ⟨[⟨1, 0⟩, ⟨0, 0⟩], (2, 1)⟩))
          (.Bra ⟨[⟨1, 0⟩, ⟨0, 0⟩], (2, 1)⟩)) := by rfl
    rw [Dirac.run, hp]
    simp only [compute, Option.bind_eq_bind, Option.some_bind, Option.map_some']
    simp [Tensor.dag, Tensor.sub, cconj]
  · have hp : Dirac.dirac c9rhs =
        some ([], .Sub (.Bra ⟨[⟨1, 0⟩, ⟨0, 0⟩], (2, 1)⟩)
          (.Dagger (.Ket ⟨[⟨1, 0⟩, ⟨0, 0⟩], (2, 1)⟩))) := by rfl
    rw [Dirac.run, hp]
    simp only [compute, Option.bind_eq_bind, Option.some_bind, Option.map_some']
    simp [Tensor.dag, Tensor.sub, cconj]

/-- C10: the basis decoder maps `0,1,+,-` to the specified kets of shape
`(2,1)`, fails on every other character, and the four quoted notation
strings evaluate as stated. -/
theorem basis_decode_spec :
    Tensor.as_tensor '0' = some ⟨[⟨1, 0⟩, ⟨0, 0⟩], (2, 1)⟩ ∧
    Tensor.as_tensor '1' = some ⟨[⟨0, 0⟩, ⟨1, 0⟩], (2, 1)⟩ ∧
    Tensor.as_tensor '+' = some (Tensor.unit ⟨[⟨1, 0⟩, ⟨1, 0⟩], (2, 1)⟩) ∧
    Tensor.as_tensor '-' = some (Tensor.unit ⟨[⟨1, 0⟩, ⟨0, -1⟩], (2, 1)⟩) ∧
    (Tensor.unit ⟨[⟨1, 0⟩, ⟨1, 0⟩], (2, 1)⟩).shape = (2, 1) ∧
    (Tensor.unit ⟨[⟨1, 0⟩, ⟨0, -1⟩], (2, 1)⟩).shape = (2, 1) ∧
    (∀ c : Char, c ≠ '0' → c ≠ '1' → c ≠ '+' → c ≠ '-' → Tensor.as_tensor c = none) ∧
    Dirac.run ("|0>".toList) = some ⟨[⟨1, 0⟩, ⟨0, 0⟩], (2, 1)⟩ ∧
    Dirac.run ("|1>".toList) = some ⟨[⟨0, 0⟩, ⟨1, 0⟩], (2, 1)⟩ ∧
    Dirac.run ("<0|1>".toList) = some ⟨[0], (1, 1)⟩ ∧
    Dirac.run ("<0|0>".toList) = some ⟨[1], (1, 1)⟩ := by
  refine ⟨rfl, rfl, rfl, rfl, rfl, rfl, ?_, rfl, rfl, ?_, ?_⟩
  · intro c h0 h1 hp hm
    rw [Tensor.as_tensor, if_neg h0, if_neg h1, if_neg hp, if_neg hm]
  · have hp : Dirac.dirac ("<0|1>".toList) =
        some ([], .Inner (.Bra ⟨[⟨1, 0⟩, ⟨0, 0⟩], (2, 1)⟩)
          (.Ket ⟨[⟨0, 0⟩, ⟨1, 0⟩], (2, 1)⟩)) := by rfl
    rw [Dirac.run, hp]
    simp only [compute, Option.bind_eq_bind, Option.some_bind]
    simp [Tensor.bitor, Tensor.dag, cconj]
    norm_num [Complex.ext_iff]
  · have hp : Dirac.dirac ("<0|0>".toList) =
        some ([], .Inner (.Bra ⟨[⟨1, 0⟩, ⟨0, 0⟩], (2, 1)⟩)
          (.Ket ⟨[⟨1, 0⟩, ⟨0, 0⟩], (2, 1)⟩)) := by rfl
    rw [Dirac.run, hp]
    simp only [compute, Option.bind_eq_bind, Option.some_bind]
    simp [Tensor.bitor, Tensor.dag, cconj]
    norm_num [Complex.ext_iff]

/-- Witness for C10 at the character `z`. -/
theorem basis_decode_spec_witness :
    Tensor.as_tensor 'z' = none :=
  basis_decode_spec.2.2.2.2.2.2.1 'z' (by decide) (by decide) (by decide) (by decide)

/-! ### Symbolic parsing lemmas for the combined inner-product rule (C8) -/

theorem allowed_not_ws {c : Char} (h : allowed c = true) : isWsChar c = false := by
  simp only [allowed, Bool.or_eq_true, decide_eq_true_eq] at h
  rcases h with ((h | h) | h) | h <;> subst h <;> rfl

theorem dropWhile_ws_cons {c : Char} (r : List Char) (h : isWsChar c = false) :
    (c :: r).dropWhile isWsChar = c :: r := by
  simp [List.dropWhile_cons, h]

theorem takeWhile_append_all {p : Char → Bool} {l : List Char} (r : List Char) (c' : Char)
    (hl : ∀ c ∈ l, p c = true) (hc : p c' = false) :
    (l ++ c' :: r).takeWhile p = l ∧ (l ++ c' :: r).dropWhile p = c' :: r := by
  induction l with
  | nil => simp [List.takeWhile_cons, List.dropWhile_cons, hc]
  | cons a l ih =>
    have ha : p a = true := hl a (by simp)
    have ih' := ih (fun c hc2 => hl c (List.mem_cons_of_mem _ hc2))
    simp [List.takeWhile_cons, List.dropWhile_cons, ha, ih'.1, ih'.2]

theorem wsP_none {α : Type} (f : ParseFn α) (i : List Char)
    (h : f (i.dropWhile isWsChar) = none) : wsP f i = none := by
  simp [wsP, h]

theorem wsP_some {α : Type} (f : ParseFn α) (i r : List Char) (o : α)
    (h : f (i.dropWhile isWsChar) = some (r, o)) :
    wsP f i = some (r.dropWhile isWsChar, o) := by
  simp [wsP, h]

theorem basis_parses {b : List Char} (r : List Char) (c' : Char) (hb : b ≠ [])
    (hall : ∀ c ∈ b, allowed c = true) (hc : allowed c' = false) (hw : isWsChar c' = false) :
    Dirac.basis (b ++ c' :: r) = some (c' :: r, b) := by
  obtain ⟨a, b', rfl⟩ : ∃ a b', b = a :: b' := by
    cases b with
    | nil => exact absurd rfl hb
    | cons a b' => exact ⟨a, b', rfl⟩
  have ha : allowed a = true := hall a (by simp)
  have htw := takeWhile_append_all (p := allowed) r c' hall hc
  have hdw : ((a :: b') ++ c' :: r).dropWhile isWsChar = (a :: b') ++ c' :: r := by
    rw [List.cons_append]
    exact dropWhile_ws_cons _ (allowed_not_ws ha)
  have hstep : takeWhile1 allowed ((a :: b') ++ c' :: r) = some (c' :: r, a :: b') := by
    rw [takeWhile1, htw.1, htw.2]
    simp
  show wsP (takeWhile1 allowed) _ = _
  rw [wsP_some (takeWhile1 allowed) _ (c' :: r) (a :: b') (by rw [hdw]; exact hstep)]
  rw [dropWhile_ws_cons _ hw]

theorem basis_fail {c : Char} (r : List Char) (hc : allowed c = false)
    (hw : isWsChar c = false) : Dirac.basis (c :: r) = none := by
  show wsP (takeWhile1 allowed) _ = _
  apply wsP_none
  rw [dropWhile_ws_cons _ hw, takeWhile1]
  simp [List.takeWhile_cons, hc]

theorem basis_fail_nil : Dirac.basis [] = none := rfl

theorem optP_pchar_nil (c : Char) : optP (pchar c) [] = some ([], none) := rfl

theorem optP_pchar_miss {a c : Char} (r : List Char) (h : ¬a = c) :
    optP (pchar c) (a :: r) = some (a :: r, none) := by
  simp [optP, pchar, h]

theorem pchar_hit (c : Char) (r : List Char) : pchar c (c :: r) = some (r, c) := by
  simp [pchar]

theorem as_tensor_some {c : Char} (h : allowed c = true) :
    ∃ t, Tensor.as_tensor c = some t := by
  simp only [allowed, Bool.or_eq_true, decide_eq_true_eq] at h
  rcases h with ((h | h) | h) | h <;> subst h <;> exact ⟨_, rfl⟩

theorem mapM_as_tensor_some {b : List Char} (hall : ∀ c ∈ b, allowed c = true) :
    ∃ l, b.mapM Tensor.as_tensor = some l := by
  induction b with
  | nil => exact ⟨[], rfl⟩
  | cons c cs ih =>
    obtain ⟨t, ht⟩ := as_tensor_some (hall c (by simp))
    obtain ⟨l, hl⟩ := ih (fun x hx => hall x (List.mem_cons_of_mem _ hx))
    exact ⟨t :: l, by rw [List.mapM_cons, ht, hl]; rfl⟩

theorem tensor_basis_some {b : List Char} (hb : b ≠ []) (hall : ∀ c ∈ b, allowed c = true) :
    ∃ t, Dirac.tensor_basis b = some t := by
  obtain ⟨a, b', rfl⟩ : ∃ a b', b = a :: b' := by
    cases b with
    | nil => exact absurd rfl hb
    | cons a b' => exact ⟨a, b', rfl⟩
  obtain ⟨t, ht⟩ := as_tensor_some (hall a (by simp))
  obtain ⟨l, hl⟩ := mapM_as_tensor_some (fun x hx => hall x (List.mem_cons_of_mem _ hx))
  refine ⟨l.foldl Tensor.prod t, ?_⟩
  rw [Dirac.tensor_basis, List.mapM_cons, ht, hl]
  rfl

theorem number_fail {c : Char} (r : List Char)
    (h : (c.isDigit || c = '.' || c = 'i') = false) : Dirac.number (c :: r) = none := by
  simp [Dirac.number, takeWhile1, List.takeWhile_cons, h]

theorem inner_parses {b1 b2 : List Char} {t1 t2 : Tensor}
    (h1 : b1 ≠ []) (h2 : b2 ≠ []) (hall1 : ∀ c ∈ b1, allowed c = true)
    (hall2 : ∀ c ∈ b2, allowed c = true)
    (ht1 : Dirac.tensor_basis b1 = some t1) (ht2 : Dirac.tensor_basis b2 = some t2) :
    Dirac.inner ('<' :: (b1 ++ '|' :: (b2 ++ ['>']))) =
      some ([], .Inner (.Bra t1) (.Ket t2)) := by
  simp only [Dirac.inner, Option.bind_eq_bind]
  rw [pchar_hit]
  simp only [Option.some_bind]
  rw [basis_parses _ '|' h1 hall1 rfl rfl]
  simp only [Option.some_bind]
  rw [pchar_hit]
  simp only [Option.some_bind]
  rw [show b2 ++ ['>'] = b2 ++ '>' :: [] from rfl, basis_parses _ '>' h2 hall2 rfl rfl]
  simp only [Option.some_bind]
  rw [pchar_hit]
  simp only [Option.some_bind]
  rw [ht1, ht2]

theorem inner_fail_dot {b1 : List Char} (rest : List Char)
    (h1 : b1 ≠ []) (hall1 : ∀ c ∈ b1, allowed c = true) :
    Dirac.inner ('<' :: (b1 ++ '|' :: ('.' :: rest))) = none := by
  simp only [Dirac.inner, Option.bind_eq_bind]
  rw [pchar_hit]
  simp only [Option.some_bind]
  rw [basis_parses _ '|' h1 hall1 rfl rfl]
  simp only [Option.some_bind]
  rw [pchar_hit]
  simp only [Option.some_bind]
  rw [basis_fail (c := '.') _ rfl rfl]
  rfl

theorem bra_parses {b1 : List Char} {t1 : Tensor} (rest : List Char)
    (h1 : b1 ≠ []) (hall1 : ∀ c ∈ b1, allowed c = true)
    (ht1 : Dirac.tensor_basis b1 = some t1) :
    Dirac.bra ('<' :: (b1 ++ '|' :: rest)) = some (rest, .Bra t1) := by
  simp only [Dirac.bra, Option.bind_eq_bind]
  rw [pchar_hit]
  simp only [Option.some_bind]
  rw [basis_parses _ '|' h1 hall1 rfl rfl]
  simp only [Option.some_bind]
  rw [pchar_hit]
  simp only [Option.some_bind]
  rw [ht1]

theorem ket_parses {b2 : List Char} {t2 : Tensor} (rest : List Char)
    (h2 : b2 ≠ []) (hall2 : ∀ c ∈ b2, allowed c = true)
    (ht2 : Dirac.tensor_basis b2 = some t2) :
    Dirac.ket ('|' :: (b2 ++ '>' :: rest)) = some (rest, .Ket t2) := by
  simp only [Dirac.ket, Option.bind_eq_bind]
  rw [pchar_hit]
  simp only [Option.some_bind]
  rw [basis_parses _ '>' h2 hall2 rfl rfl]
  simp only [Option.some_bind]
  rw [pchar_hit]
  simp only [Option.some_bind]
  rw [ht2]

theorem many0Aux_nil {α : Type} (f : ParseFn α) (hf : f [] = none) :
    ∀ k, many0Aux f k [] = some ([], []) := by
  intro k
  cases k with
  | zero => rfl
  | succ n => simp [many0Aux, hf]

theorem many0_nil {α : Type} (f : ParseFn α) (hf : f [] = none) :
    many0 f [] = some ([], []) := by
  rw [many0]
  exact many0Aux_nil f hf _

theorem many0_single {α : Type} (f : ParseFn α) {a : Char} {i : List Char} {o : α}
    (hf : f (a :: i) = some ([], o)) (hnil : f [] = none) :
    many0 f (a :: i) = some ([], [o]) := by
  rw [many0]
  have hL : (a :: i).length + 1 = (i.length + 1) + 1 := by simp
  rw [hL]
  simp only [many0Aux, hf, hnil]
  rw [if_neg (by simp)]

theorem outer_fail_lt (rest : List Char) : Dirac.outer ('<' :: rest) = none := by
  simp [Dirac.outer, Dirac.ket, pchar]

theorem inner_fail_head {a : Char} (r : List Char) (h : ¬a = '<') :
    Dirac.inner (a :: r) = none := by
  simp [Dirac.inner, pchar, h]

theorem bra_fail_head {a : Char} (r : List Char) (h : ¬a = '<') :
    Dirac.bra (a :: r) = none := by
  simp [Dirac.bra, pchar, h]

theorem outer_fail_ket_nil {b2 : List Char} {t2 : Tensor}
    (h2 : b2 ≠ []) (hall2 : ∀ c ∈ b2, allowed c = true)
    (ht2 : Dirac.tensor_basis b2 = some t2) :
    Dirac.outer ('|' :: (b2 ++ ['>'])) = none := by
  simp only [Dirac.outer, Option.bind_eq_bind]
  rw [show b2 ++ ['>'] = b2 ++ '>' :: [] from rfl, ket_parses [] h2 hall2 ht2]
  simp only [Option.some_bind]
  rfl

theorem atom_inner_form (add : ParseFn Expression) {b1 b2 : List Char} {t1 t2 : Tensor}
    (h1 : b1 ≠ []) (h2 : b2 ≠ []) (hall1 : ∀ c ∈ b1, allowed c = true)
    (hall2 : ∀ c ∈ b2, allowed c = true)
    (ht1 : Dirac.tensor_basis b1 = some t1) (ht2 : Dirac.tensor_basis b2 = some t2) :
    Dirac.atom add ('<' :: (b1 ++ '|' :: (b2 ++ ['>']))) =
      some ([], .Inner (.Bra t1) (.Ket t2)) := by
  have hdw : ('<' :: (b1 ++ '|' :: (b2 ++ ['>']))).dropWhile isWsChar =
      '<' :: (b1 ++ '|' :: (b2 ++ ['>'])) := dropWhile_ws_cons _ rfl
  simp only [Dirac.atom]
  rw [wsP_none Dirac.number _ (by rw [hdw]; exact number_fail _ rfl)]
  rw [Option.none_orElse]
  rw [wsP_none Dirac.outer _ (by rw [hdw]; exact outer_fail_lt _)]
  rw [Option.none_orElse]
  rw [wsP_some Dirac.inner _ _ _
    (by rw [hdw]; exact inner_parses h1 h2 hall1 hall2 ht1 ht2)]
  rw [Option.some_orElse]
  rfl

theorem atom_bra_form (add : ParseFn Expression) {b1 : List Char} {t1 : Tensor}
    (rest : List Char)
    (h1 : b1 ≠ []) (hall1 : ∀ c ∈ b1, allowed c = true)
    (ht1 : Dirac.tensor_basis b1 = some t1) :
    Dirac.atom add ('<' :: (b1 ++ '|' :: ('.' :: rest))) =
      some ('.' :: rest, .Bra t1) := by
  have hdw : ('<' :: (b1 ++ '|' :: ('.' :: rest))).dropWhile isWsChar =
      '<' :: (b1 ++ '|' :: ('.' :: rest)) := dropWhile_ws_cons _ rfl
  simp only [Dirac.atom]
  rw [wsP_none Dirac.number _ (by rw [hdw]; exact number_fail _ rfl)]
  rw [Option.none_orElse]
  rw [wsP_none Dirac.outer _ (by rw [hdw]; exact outer_fail_lt _)]
  rw [Option.none_orElse]
  rw [wsP_none Dirac.inner _ (by rw [hdw]; exact inner_fail_dot rest h1 hall1)]
  rw [Option.none_orElse]
  rw [wsP_some Dirac.bra _ _ _ (by rw [hdw]; exact bra_parses _ h1 hall1 ht1)]
  rw [Option.some_orElse]
  rw [dropWhile_ws_cons (c := '.') _ rfl]

theorem atom_ket_form (add : ParseFn Expression) {b2 : List Char} {t2 : Tensor}
    (h2 : b2 ≠ []) (hall2 : ∀ c ∈ b2, allowed c = true)
    (ht2 : Dirac.tensor_basis b2 = some t2) :
    Dirac.atom add ('|' :: (b2 ++ ['>'])) = some ([], .Ket t2) := by
  have hdw : ('|' :: (b2 ++ ['>'])).dropWhile isWsChar =
      '|' :: (b2 ++ ['>']) := dropWhile_ws_cons _ rfl
  simp only [Dirac.atom]
  rw [wsP_none Dirac.number _ (by rw [hdw]; exact number_fail _ rfl)]
  rw [Option.none_orElse]
  rw [wsP_none Dirac.outer _ (by rw [hdw]; exact outer_fail_ket_nil h2 hall2 ht2)]
  rw [Option.none_orElse]
  rw [wsP_none Dirac.inner _ (by rw [hdw]; exact inner_fail_head _ (by decide))]
  rw [Option.none_orElse]
  rw [wsP_none Dirac.bra _ (by rw [hdw]; exact bra_fail_head _ (by decide))]
  rw [Option.none_orElse]
  rw [wsP_some Dirac.ket _ _ _
    (by rw [hdw, show b2 ++ ['>'] = b2 ++ '>' :: [] from rfl]
        exact ket_parses [] h2 hall2 ht2)]
  rw [Option.some_orElse]
  rfl

theorem dag_no_quote (add : ParseFn Expression) {i r : List Char} {e : Expression}
    (hatom : Dirac.atom add i = some (r, e))
    (hq : optP (pchar squote) r = some (r, none)) :
    Dirac.dag add i = some (r, e) := by
  simp only [Dirac.dag, Option.bind_eq_bind]
  rw [hatom]
  simp only [Option.some_bind]
  rw [hq]
  simp only [Option.some_bind]

theorem inverse_no_minus (add : ParseFn Expression) {i r : List Char} {e : Expression}
    (hm : optP (pchar '-') i = some (i, none))
    (hdw : i.dropWhile isWsChar = i)
    (hdag : Dirac.dag add i = some (r, e))
    (hrw : r.dropWhile isWsChar = r) :
    Dirac.inverse add i = some (r, e) := by
  simp only [Dirac.inverse, Option.bind_eq_bind]
  rw [hm]
  simp only [Option.some_bind]
  rw [wsP_some _ _ _ _ (by rw [hdw]; exact hdag), hrw]
  simp only [Option.some_bind]

theorem mulTerm_nil (add : ParseFn Expression) : Dirac.mulTerm add [] = none := rfl

theorem addOp_nil (add : ParseFn Expression) : Dirac.addOp add [] = none := rfl

theorem mulTerm_dot (add : ParseFn Expression) {b2 : List Char} {t2 : Tensor}
    (h2 : b2 ≠ []) (hall2 : ∀ c ∈ b2, allowed c = true)
    (ht2 : Dirac.tensor_basis b2 = some t2) :
    Dirac.mulTerm add ('.' :: ('|' :: (b2 ++ ['>']))) =
      some ([], (some '.', .Ket t2)) := by
  have hket : Dirac.dag add ('|' :: (b2 ++ ['>'])) = some ([], .Ket t2) :=
    dag_no_quote add (atom_ket_form add h2 hall2 ht2) (optP_pchar_nil squote)
  have hinv : Dirac.inverse add ('|' :: (b2 ++ ['>'])) = some ([], .Ket t2) :=
    inverse_no_minus add (optP_pchar_miss _ (by decide))
      (dropWhile_ws_cons (c := '|') _ rfl) hket rfl
  simp only [Dirac.mulTerm]
  have hop : Dirac.mulOp add ('.' :: ('|' :: (b2 ++ ['>']))) =
      some ([], (some '.', .Ket t2)) := by
    simp only [Dirac.mulOp, Option.bind_eq_bind]
    rw [show pchar '*' ('.' :: ('|' :: (b2 ++ ['>']))) = none from by simp [pchar]]
    rw [Option.none_orElse]
    rw [show pchar '/' ('.' :: ('|' :: (b2 ++ ['>']))) = none from by simp [pchar]]
    rw [Option.none_orElse]
    rw [show pchar 'x' ('.' :: ('|' :: (b2 ++ ['>']))) = none from by simp [pchar]]
    rw [Option.none_orElse]
    rw [pchar_hit]
    simp only [Option.some_bind]
    rw [hinv]
    simp only [Option.some_bind]
  rw [hop, Option.some_orElse]

theorem mult_no_ops (add : ParseFn Expression) {i : List Char} {e : Expression}
    (hinv : Dirac.inverse add i = some ([], e)) :
    Dirac.multiplicative add i = some ([], e) := by
  simp only [Dirac.multiplicative, Option.bind_eq_bind]
  rw [hinv]
  simp only [Option.some_bind]
  rw [many0_nil _ (mulTerm_nil add)]
  simp only [Option.some_bind]
  rfl

theorem mult_one_dot (add : ParseFn Expression) {i : List Char} {e0 : Expression}
    {b2 : List Char} {t2 : Tensor}
    (hinv : Dirac.inverse add i = some ('.' :: ('|' :: (b2 ++ ['>'])), e0))
    (h2 : b2 ≠ []) (hall2 : ∀ c ∈ b2, allowed c = true)
    (ht2 : Dirac.tensor_basis b2 = some t2) :
    Dirac.multiplicative add i = some ([], .Inner e0 (.Ket t2)) := by
  simp only [Dirac.multiplicative, Option.bind_eq_bind]
  rw [hinv]
  simp only [Option.some_bind]
  rw [many0_single _ (mulTerm_dot add h2 hall2 ht2) (mulTerm_nil add)]
  simp only [Option.some_bind, List.foldlM_cons, List.foldlM_nil]
  simp [Dirac.mulFold]

theorem additiveF_no_ops (add : ParseFn Expression) {i : List Char} {e : Expression}
    (hm : Dirac.multiplicative add i = some ([], e)) :
    Dirac.additiveF add i = some ([], e) := by
  simp only [Dirac.additiveF, Option.bind_eq_bind]
  rw [hm]
  simp only [Option.some_bind]
  rw [many0_nil _ (addOp_nil add)]
  simp only [Option.some_bind]
  rfl

theorem additiveCore_succ (n : ℕ) :
    Dirac.additiveCore (n + 1) = Dirac.additiveF (Dirac.additiveCore n) := rfl

theorem dirac_of_additive {i : List Char} {e : Expression}
    (h : Dirac.additiveCore (i.length + 1) i = some ([], e)) :
    Dirac.dirac i = some ([], e) := by
  show all_consuming _ i = _
  simp only [all_consuming]
  rw [h]
  simp

/-- C8: for equal-length nonempty basis strings `b1`, `b2`, the combined
atom `<b1|b2>` and the explicit dot form `<b1|.|b2>` parse and evaluate to
the same tensor. -/
theorem combined_inner_equals_dot (b1 b2 : List Char)
    (h1 : b1 ≠ []) (h2 : b2 ≠ [])
    (hall1 : ∀ c ∈ b1, allowed c = true) (hall2 : ∀ c ∈ b2, allowed c = true)
    (hlen : b1.length = b2.length) :
    ∃ t : Tensor,
      Dirac.run ('<' :: (b1 ++ '|' :: (b2 ++ ['>']))) = some t ∧
      Dirac.run ('<' :: (b1 ++ '|' :: ('.' :: ('|' :: (b2 ++ ['>']))))) = some t := by
  obtain ⟨t1, ht1⟩ := tensor_basis_some h1 hall1
  obtain ⟨t2, ht2⟩ := tensor_basis_some h2 hall2
  have hadd1 : ∀ add, Dirac.additiveF add ('<' :: (b1 ++ '|' :: (b2 ++ ['>']))) =
      some ([], .Inner (.Bra t1) (.Ket t2)) := fun add =>
    additiveF_no_ops add (mult_no_ops add
      (inverse_no_minus add (optP_pchar_miss _ (by decide))
        (dropWhile_ws_cons (c := '<') _ rfl)
        (dag_no_quote add (atom_inner_form add h1 h2 hall1 hall2 ht1 ht2)
          (optP_pchar_nil squote)) rfl))
  have hdirac1 : Dirac.dirac ('<' :: (b1 ++ '|' :: (b2 ++ ['>']))) =
      some ([], .Inner (.Bra t1) (.Ket t2)) :=
    dirac_of_additive (by rw [additiveCore_succ]; exact hadd1 _)
  have hadd2 : ∀ add,
      Dirac.additiveF add ('<' :: (b1 ++ '|' :: ('.' :: ('|' :: (b2 ++ ['>']))))) =
      some ([], .Inner (.Bra t1) (.Ket t2)) := fun add =>
    additiveF_no_ops add (mult_one_dot add
      (inverse_no_minus add (optP_pchar_miss _ (by decide))
        (dropWhile_ws_cons (c := '<') _ rfl)
        (dag_no_quote add (atom_bra_form add ('|' :: (b2 ++ ['>'])) h1 hall1 ht1)
          (optP_pchar_miss _ (by decide)))
        (dropWhile_ws_cons (c := '.') _ rfl))
      h2 hall2 ht2)
  have hdirac2 : Dirac.dirac ('<' :: (b1 ++ '|' :: ('.' :: ('|' :: (b2 ++ ['>']))))) =
      some ([], .Inner (.Bra t1) (.Ket t2)) :=
    dirac_of_additive (by rw [additiveCore_succ]; exact hadd2 _)
  refine ⟨⟨[Tensor.bitor t1.dag t2], (1, 1)⟩, ?_, ?_⟩
  · simp only [Dirac.run]
    rw [hdirac1]
    simp only [compute, Option.bind_eq_bind, Option.some_bind]
  · simp only [Dirac.run]
    rw [hdirac2]
    simp only [compute, Option.bind_eq_bind, Option.some_bind]

/-- Witness for C8 at `b1 = "0"`, `b2 = "1"`. -/
theorem combined_inner_equals_dot_witness :
    ∃ t : Tensor,
      Dirac.run ('<' :: (['0'] ++ '|' :: (['1'] ++ ['>']))) = some t ∧
      Dirac.run ('<' :: (['0'] ++ '|' :: ('.' :: ('|' :: (['1'] ++ ['>']))))) = some t :=
  combined_inner_equals_dot ['0'] ['1'] (by decide) (by decide)
    (by intro c hc; simp at hc; subst hc; rfl)
    (by intro c hc; simp at hc; subst hc; rfl) (by decide)
